import Mathlib

/-!
Verification of the routing core of a serverless deployment tool for a React
framework.  The development shallowly embeds:

* `page.ts` — the request router (`handlePageReq`, `handle404`, `pageHtml`);
* `redirect.ts` — redirect resolution (`getRedirectPath`, `getTrailingSlashPath`);
* `match.ts` — destination compilation (`compileDestination`, `matchPath`);
* the html non-dynamic locale-duplication step of `prepareBuildManifests`
  (`build/index.ts`).

JavaScript strings are modelled through their character lists; JS objects used
as string-keyed maps are modelled as insertion-ordered association lists with
`jsGet` returning the first binding.  JS truthiness of string values (`""` is
falsy) is modelled by `truthy`.

Helpers of the routing core whose source files are not available
(`normalise` from basepath.ts, `addDefaultLocaleToPath` from locale.ts,
`matchDynamicRoute` from match.ts, `getRewritePath` / `isExternalRewrite` from
rewrite.ts) and the third-party template library used by `matchPath` /
`compileDestination` are modelled from the specification; each such definition
carries a doc comment saying so.
-/

/-- Character-list split: models JS `String.prototype.split` with a one-character
separator (`"a?b".split("?") = ["a","b"]`, `"".split("?") = [""]`). -/
def splitChars (c : Char) : List Char → List (List Char)
  | [] => [[]]
  | x :: xs =>
    match splitChars c xs with
    | [] => [[x]]
    | g :: gs => if x = c then [] :: g :: gs else (x :: g) :: gs

/-- Models JS `String.prototype.startsWith`. -/
def strStartsWith (s pre : String) : Bool :=
  List.isPrefixOf pre.data s.data

/-- Models JS `String.prototype.endsWith`. -/
def strEndsWith (s suf : String) : Bool :=
  List.isSuffixOf suf.data s.data

/-- ASCII lower-casing of a character (model of `String.prototype.toLowerCase`
restricted to ASCII, which is all the routing core compares). -/
def lcChar (c : Char) : Char :=
  if 'A' ≤ c ∧ c ≤ 'Z' then Char.ofNat (c.toNat + 32) else c

/-- Models JS `String.prototype.toLowerCase` (ASCII). -/
def strLower (s : String) : String :=
  String.mk (s.data.map lcChar)

/-- Models JS `String.prototype.slice(0, -1)` (drop the last character). -/
def strDropRight1 (s : String) : String :=
  String.mk s.data.dropLast

/-- First-binding lookup in an insertion-ordered association list; models a JS
object property read `obj[key]`. -/
def jsGet {α : Type} : List (String × α) → String → Option α
  | [], _ => none
  | (k, v) :: rest, key => if k = key then some v else jsGet rest key

/-- JS truthiness of an optional string property: absent and `""` are falsy. -/
def truthy : Option String → Bool
  | none => false
  | some s => s != ""

/-- Replaces the first occurrence of `pat` in `s`; models the one-argument-string
form of JS `String.prototype.replace`. -/
def replaceFirstChars (pat rep : List Char) : List Char → List Char
  | [] => []
  | c :: rest =>
    if List.isPrefixOf pat (c :: rest) then rep ++ (c :: rest).drop pat.length
    else c :: replaceFirstChars pat rep rest

/-- String wrapper for `replaceFirstChars`. -/
def replaceFirst (s pat rep : String) : String :=
  String.mk (replaceFirstChars pat.data rep.data s.data)

/-! ## Data model (types.ts, build/types.ts) -/

/-- Internationalization configuration of the routes manifest. -/
structure I18nConfig where
  locales : List String
  defaultLocale : String
deriving DecidableEq

/-- A redirect rule from the routes manifest: `{source, destination, statusCode}`
(the precompiled `regex` field is not consulted by `getRedirectPath`, which
re-matches via `matchPath`, so it is omitted here). -/
structure RedirectRule where
  source : String
  destination : String
  statusCode : Nat
deriving DecidableEq

/-- A rewrite rule (`{source, destination}`). -/
structure RewriteRule where
  source : String
  destination : String
deriving DecidableEq

/-- The slice of the routes manifest the embedded code reads. -/
structure RoutesManifest where
  basePath : String
  redirects : List RedirectRule
  rewrites : List RewriteRule
  i18n : Option I18nConfig
deriving DecidableEq

/-- Replaces the rewrite-rule list of a routes manifest. -/
def withRewrites (rm : RoutesManifest) (rw : List RewriteRule) : RoutesManifest :=
  ⟨rm.basePath, rm.redirects, rw, rm.i18n⟩

/-- A request as consumed by redirect resolution (only `uri` is read). -/
structure Request where
  uri : String
deriving DecidableEq

/-- The build manifest slice consumed by `getTrailingSlashPath`. -/
structure Manifest where
  trailingSlash : Bool
deriving DecidableEq

/-- Value of `ssr.dynamic` / `ssr.catchAll` / `html.dynamic` entries:
`{file, regex}`. -/
structure DynamicPageFile where
  file : String
  regex : String
deriving DecidableEq

/-- Entry of the globally sorted dynamic-route list `pages.dynamic`:
`{route, regex}`. -/
structure DynamicRouteItem where
  route : String
  regex : String
deriving DecidableEq

/-- Value of `ssg.nonDynamic` entries (prerender metadata; only presence
matters to the router). -/
structure SsgRouteData where
  dataRoute : String
  srcRoute : Option String
deriving DecidableEq

/-- Value of `ssg.dynamic` entries (only presence matters to the router). -/
structure SsgDynamicRouteData where
  routeRegex : String
  dataRoute : String
deriving DecidableEq

/-- The `pages.html` bucket. -/
structure HtmlPages where
  nonDynamic : List (String × String)
  dynamic : List (String × DynamicPageFile)
deriving DecidableEq

/-- The `pages.ssr` bucket. -/
structure SsrPages where
  nonDynamic : List (String × String)
  dynamic : List (String × DynamicPageFile)
  catchAll : List (String × DynamicPageFile)
deriving DecidableEq

/-- The `pages.ssg` bucket. -/
structure SsgPages where
  nonDynamic : List (String × SsgRouteData)
  dynamic : List (String × SsgDynamicRouteData)
deriving DecidableEq

/-- The `pages` structure of the page manifest. -/
structure PagesData where
  dynamic : List DynamicRouteItem
  html : HtmlPages
  ssr : SsrPages
  ssg : SsgPages
deriving DecidableEq

/-- The page manifest slice consumed by the router. -/
structure PageManifest where
  pages : PagesData
deriving DecidableEq

/-- Routing decision returned by the page router.  `staticFile f qs` embeds the
TS object `{isData:false, isStatic:true, file:f}` (with an optional
`querystring` property), `render p qs` embeds `{isData:false, isRender:true,
page:p}`, and `external path qs` embeds `{isExternal:true, path, querystring}`. -/
inductive PageRoute where
  | staticFile (file : String) (querystring : Option String)
  | render (page : String) (querystring : Option String)
  | external (path : String) (querystring : Option String)
deriving DecidableEq

/-- Models the object spread `{...route, querystring}` of page.ts line 85-88:
the `querystring` property of the routed result is overwritten. -/
def withQuerystring : PageRoute → Option String → PageRoute
  | .staticFile f _, qs => .staticFile f qs
  | .render p _, qs => .render p qs
  | .external p _, qs => .external p qs

/-! ## Template library model (spec §4.1)

`matchPath` and `compileDestination` (match.ts) delegate to a third-party
template library that is not part of this repository.  The library behaviour
they rely on is modelled from the spec: a route template is a `/`-separated
sequence of segments, a segment `:name` matches / substitutes one non-empty
non-slash path segment, other segments are literal (matching is
case-insensitive); compilation or substitution failure (missing parameter,
malformed template) yields `none`, never a fault. -/

/-- Percent-encoding of `/` inside substituted parameter values (the model of
`encodeURIComponent` restricted to the separator character, which is the only
character whose encoding the routing layer depends on). -/
def encodeSlashChars : List Char → List Char
  | [] => []
  | c :: cs => (if c = '/' then ['%', '2', 'F'] else [c]) ++ encodeSlashChars cs

/-- Modelled from the spec: substitution of one destination-template token.
A token `:name` is replaced by the encoded parameter value (failing when the
parameter is absent or empty); a token containing `:` anywhere else is outside
the modelled template language and fails to compile (e.g. the `ftp:` token of
the destination `ftp://example.com`, which the repository's own test expects
to yield `null`); any other token is literal. -/
def tokenSub (params : List (String × String)) (t : List Char) : Option (List Char) :=
  if t.contains ':' then
    match t with
    | ':' :: name =>
      if name = [] || name.contains ':' then none
      else
        match jsGet params (String.mk name) with
        | none => none
        | some v => if v = "" then none else some (encodeSlashChars v.data)
    | _ => none
  else some t

/-- Substitution over a token list, failing if any token fails. -/
def tokensSub (params : List (String × String)) : List (List Char) → Option (List (List Char))
  | [] => some []
  | t :: ts =>
    match tokenSub params t, tokensSub params ts with
    | some t2, some ts2 => some (t2 :: ts2)
    | _, _ => none

/-- Joins tokens back with `/` separators (inverse of `splitChars '/'`). -/
def joinTokens : List (List Char) → List Char
  | [] => []
  | [t] => t
  | t :: ts => t ++ '/' :: joinTokens ts

/-- Modelled from the spec: the reverse compiler `buildPath(template, params)`
of the template library (`compile`/`toPath`), at character-list level. -/
def toPathChars (params : List (String × String)) (l : List Char) : Option (List Char) :=
  (tokensSub params (splitChars '/' l)).map joinTokens

/-- Modelled from the spec: `buildPath(template, params) -> string | null`. -/
def toPath (template : String) (params : List (String × String)) : Option String :=
  (toPathChars params template.data).map String.mk

/-- Length of the scheme marker of an absolute http/https URL (0 when the
string is not such a URL). -/
def schemeLen (d : String) : Nat :=
  if strStartsWith (strLower d) "https://" then 8
  else if strStartsWith (strLower d) "http://" then 7 else 0

/-- A character that may still belong to the URL host (not a path or query
delimiter). -/
def notHostEnd (c : Char) : Bool :=
  !(c = '/') && !(c = '?')

/-- Modelled from the spec: the `{origin, pathname}` decomposition performed by
`new URL(destination)` for absolute http/https destinations.  The host runs up
to the first `/` or `?`; the pathname is the remainder up to the query, with an
empty path normalised to `/`; the query (and anything after it) is discarded.
Fragments are not modelled. -/
def parseUrl (d : String) : Option (String × String) :=
  if schemeLen d = 0 then none
  else
    let rest := d.data.drop (schemeLen d)
    let host := rest.takeWhile notHostEnd
    if host = [] then none
    else
      let after := rest.dropWhile notHostEnd
      let path0 := after.takeWhile (fun c => !(c = '?'))
      some (String.mk (d.data.take (schemeLen d) ++ host),
            if path0 = [] then "/" else String.mk path0)

/-- Embeds `compileDestination` (match.ts lines 23-58).  Absolute http/https
destinations compile only the URL path component and re-attach the origin,
stripping a trailing slash the original destination did not have; other
destinations are compiled directly (the source escapes `?` first so the
template library treats it literally — in this model the template syntax has
no `?` operator, so the escape is the identity); any failure yields `none`. -/
def compileDestination (destination : String) (params : List (String × String)) : Option String :=
  let destinationLowerCase := strLower destination
  if strStartsWith destinationLowerCase "https://" ||
     strStartsWith destinationLowerCase "http://" then
    match parseUrl destination with
    | none => none
    | some (origin, pathname) =>
      match toPath pathname params with
      | none => none
      | some p =>
        let compiledDestination := origin ++ p
        if !(strEndsWith destination "/") && strEndsWith compiledDestination "/" then
          some (strDropRight1 compiledDestination)
        else
          some compiledDestination
  else
    toPath destination params

/-- Modelled from the spec: one source-pattern segment list matched against one
path segment list, accumulating captured parameters.  A `:name` segment
captures one non-empty path segment; literal segments compare
case-insensitively. -/
def matchSegs : List (List Char) → List (List Char) → Option (List (String × String))
  | [], [] => some []
  | sTok :: ss, pTok :: ps =>
    match sTok with
    | ':' :: name =>
      if pTok = [] then none
      else
        match matchSegs ss ps with
        | none => none
        | some m => some ((String.mk name, String.mk pTok) :: m)
    | _ =>
      if sTok.map lcChar = pTok.map lcChar then matchSegs ss ps else none
  | _, _ => none

/-- Embeds `matchPath` (match.ts lines 13-16), with the template library's
matcher modelled from the spec (§4.1): `none` is the `false` result of the
library matcher, `some params` its match object. -/
def matchPath (path source : String) : Option (List (String × String)) :=
  matchSegs (splitChars '/' source.data) (splitChars '/' path.data)

/-! ## Locale / basepath / rewrite helpers (modelled from the spec) -/

/-- Modelled from the spec: `addDefaultLocaleToPath` (locale.ts, not under the
available sources) prepends the default locale when internationalization is
enabled and the path carries no configured locale prefix (§4.4). -/
def addDefaultLocaleToPath (uri : String) (rm : RoutesManifest) : String :=
  match rm.i18n with
  | none => uri
  | some i =>
    if i.locales.any (fun l => strStartsWith uri ("/" ++ l ++ "/") || uri == "/" ++ l) then
      uri
    else "/" ++ i.defaultLocale ++ uri

/-- Modelled from the spec: `normalise` (basepath.ts, not under the available
sources) strips the configured base path from the URI (§4.5 step 1), with an
empty result normalised back to the root path. -/
def normalise (uri : String) (rm : RoutesManifest) : String :=
  let stripped :=
    if rm.basePath != "" && strStartsWith uri rm.basePath then
      String.mk (uri.data.drop rm.basePath.data.length)
    else uri
  if stripped = "" then "/" else stripped

/-- The normalized URI the router computes (page.ts lines 42-45): default-locale
insertion followed by base-path normalization. -/
def localeUriOf (uri : String) (rm : RoutesManifest) : String :=
  normalise (addDefaultLocaleToPath uri rm) rm

/-- Modelled from the spec: `isExternalRewrite` (rewrite.ts, not under the
available sources) — external rewrite targets are absolute http/https URLs. -/
def isExternalRewrite (path : String) : Bool :=
  strStartsWith (strLower path) "http://" || strStartsWith (strLower path) "https://"

/-- Scan of the rewrite rules in declaration order (used by the modelled
`getRewritePath`), symmetric to the redirect scan of redirect.ts. -/
def rewriteLoop (path : String) : List RewriteRule → Option String
  | [] => none
  | rule :: rest =>
    match matchPath path rule.source with
    | some params => compileDestination rule.destination params
    | none => rewriteLoop path rest

/-- Modelled from the spec: `getRewritePath` (rewrite.ts, not under the
available sources) resolves the first rewrite rule whose source matches the
default-locale-normalized path, compiling its destination with the captured
parameters (§4.4, "conceptually symmetric" to redirect resolution). -/
def getRewritePath (uri : String) (rm : RoutesManifest) : Option String :=
  rewriteLoop (addDefaultLocaleToPath uri rm) rm.rewrites

/-- Modelled from the spec: `matchDynamicRoute` (match.ts, not under the
available sources) scans the globally sorted dynamic-route list and returns the
route template of the first entry whose pattern matches the URI (§4.5 step 6).
The structural test is modelled from §4.1 on the route template itself:
`[x]` matches one non-empty segment, a trailing `[...x]` one or more remaining
segments, a trailing `[[...x]]` zero or more, and literals match
case-insensitively. -/
def templMatches : List (List Char) → List (List Char) → Bool
  | [], [] => true
  | [], _ :: _ => false
  | t :: ts, us =>
    let s := String.mk t
    if strStartsWith s "[[..." then ts.isEmpty
    else if strStartsWith s "[..." then ts.isEmpty && !us.isEmpty
    else
      match us with
      | [] => false
      | u :: us2 =>
        if strStartsWith s "[" then !u.isEmpty && templMatches ts us2
        else (t.map lcChar == u.map lcChar) && templMatches ts us2

/-- Modelled from the spec: first structural match in the sorted dynamic-route
list (see `templMatches`). -/
def matchDynamicRoute (uri : String) : List DynamicRouteItem → Option String
  | [] => none
  | r :: rest =>
    if templMatches (splitChars '/' r.route.data) (splitChars '/' uri.data) then some r.route
    else matchDynamicRoute uri rest

/-! ## redirect.ts -/

/-- The ordered scan of redirect.ts lines 116-134: the first rule whose source
matches wins; the guard `if (!compiledDestination) return null` is a JS
falsiness test, so a match whose destination fails to compile — or compiles to
the falsy empty string — makes the whole resolution return `null` immediately. -/
def redirectLoop (path : String) : List RedirectRule → Option (String × Nat)
  | [] => none
  | redirect :: rest =>
    match matchPath path redirect.source with
    | some params =>
      match compileDestination redirect.destination params with
      | none => none
      | some compiled =>
        if compiled = "" then none
        else some (compiled, redirect.statusCode)
    | none => redirectLoop path rest

/-- Embeds `getRedirectPath` (redirect.ts lines 108-137): `some (path, status)`
is the TS `{path, statusCode}` result, `none` the TS `null`. -/
def getRedirectPath (request : Request) (rm : RoutesManifest) : Option (String × Nat) :=
  redirectLoop (addDefaultLocaleToPath request.uri rm) rm.redirects

/-- Models the regular-expression test `/^\/[^/]/.test(uri)` of redirect.ts
line 156: a leading slash followed by one non-slash character. -/
def startsWithSlashNonSlash (uri : String) : Bool :=
  match uri.data with
  | '/' :: c :: _ => !(c = '/')
  | _ => false

/-- Embeds `getTrailingSlashPath` (redirect.ts lines 144-170); `none` is the TS
`undefined` (no normalization redirect). -/
def getTrailingSlashPath (request : Request) (manifest : Manifest) (isFile : Bool) : Option String :=
  let uri := request.uri
  if isFile then
    if strEndsWith uri "/" then some (strDropRight1 uri) else none
  else if startsWithSlashNonSlash request.uri then
    let trailingSlash := manifest.trailingSlash
    if !trailingSlash && strEndsWith uri "/" then some (strDropRight1 uri)
    else if trailingSlash && !(strEndsWith uri "/") then some (uri ++ "/")
    else none
  else none

/-! ## page.ts -/

/-- Embeds `pageHtml` (page.ts lines 12-17). -/
def pageHtml (localeUri : String) : String :=
  if localeUri == "/" then "pages/index.html"
  else "pages" ++ localeUri ++ ".html"

/-- Embeds `handle404` (page.ts lines 19-32): the guard is the JS truthiness of
`manifest.pages.html.nonDynamic["/404"]`. -/
def handle404 (manifest : PageManifest) : PageRoute :=
  if truthy (jsGet manifest.pages.html.nonDynamic "/404") then
    .staticFile "pages/404.html" none
  else
    .render "pages/_error.js" none

/-- Embeds page.ts lines 91-129: the dynamic-route scan and its resolution
against the buckets in the order ssg.dynamic, ssr.dynamic, html.dynamic,
ssr.catchAll, falling back to `handle404`. -/
def handlePageReqDynamic (localeUri : String) (manifest : PageManifest) : PageRoute :=
  let pages := manifest.pages
  match matchDynamicRoute localeUri pages.dynamic with
  | none => handle404 manifest
  | some dynamic =>
    if (jsGet pages.ssg.dynamic dynamic).isSome then
      .staticFile (pageHtml localeUri) none
    else
      match jsGet pages.ssr.dynamic dynamic with
      | some dynamicSSR => .render dynamicSSR.file none
      | none =>
        match jsGet pages.html.dynamic dynamic with
        | some dynamicHTML => .staticFile dynamicHTML.file none
        | none =>
          match jsGet pages.ssr.catchAll dynamic with
          | some catchAll => .render catchAll.file none
          | none => handle404 manifest

/-- Models `rewrite.split("?")` followed by `const [path, querystring] = ...`
(page.ts line 70): the path is the part before the first `?`, the querystring
the part between the first and second `?` (absent when there is no `?`). -/
def splitRewrite (rw : String) : String × Option String :=
  match (splitChars '?' rw.data).map String.mk with
  | [] => ("", none)
  | p :: rest => (p, rest.head?)

/-- Embeds `handlePageReq` (page.ts lines 34-130).  The non-dynamic guards use
JS truthiness (`truthy` for string-valued buckets, presence for the
object-valued ssg bucket); `!isRewrite && getRewritePath(...)` is embedded by
matching on `isRewrite` first (the short-circuit) and treating the falsy
rewrite results (`undefined` and `""`) as no rewrite; the single recursive call
passes `isRewrite := true`, which is what makes the recursion terminate. -/
def handlePageReq (uri : String) (manifest : PageManifest) (rm : RoutesManifest)
    (isPreview : Bool) (isRewrite : Bool) : PageRoute :=
  let pages := manifest.pages
  let localeUri := localeUriOf uri rm
  if truthy (jsGet pages.html.nonDynamic localeUri) then
    .staticFile ((jsGet pages.html.nonDynamic localeUri).getD "") none
  else if (jsGet pages.ssg.nonDynamic localeUri).isSome && !isPreview then
    .staticFile (pageHtml localeUri) none
  else if truthy (jsGet pages.ssr.nonDynamic localeUri) then
    .render ((jsGet pages.ssr.nonDynamic localeUri).getD "") none
  else
    match isRewrite with
    | true => handlePageReqDynamic localeUri manifest
    | false =>
      match getRewritePath uri rm with
      | none => handlePageReqDynamic localeUri manifest
      | some rewrite =>
        if rewrite = "" then handlePageReqDynamic localeUri manifest
        else
          let pq := splitRewrite rewrite
          if isExternalRewrite pq.1 then
            .external pq.1 pq.2
          else
            withQuerystring (handlePageReq pq.1 manifest rm isPreview true) pq.2
termination_by (if isRewrite then 0 else 1)
decreasing_by simp

/-! ## build/index.ts: locale duplication of html.nonDynamic entries -/

/-- The already-prefixed test of build/index.ts lines 188-192: the key starts
with `/<locale>/` or equals `/<locale>` for some configured locale. -/
def isLocalePrefixed (locales : List String) (key : String) : Bool :=
  locales.any (fun l => strStartsWith key ("/" ++ l ++ "/") || key == "/" ++ l)

/-- Embeds the body of the labelled loop `htmlPagesNonDynamicLoop` of
`prepareBuildManifests` (build/index.ts lines 186-199) for one locale: the
entries of `htmlPages.nonDynamic` are visited in insertion order; on the first
key that is already prefixed with any configured locale the source executes
`break htmlPagesNonDynamicLoop`, which terminates the whole per-locale key
loop (embedded by returning `[]` for the rest of the list); otherwise the
locale-prefixed duplicate `('/<locale>' + key, file with the first "pages/"
replaced by "pages/<locale>/")` is recorded. -/
def localeHtmlNonDynamicForLocale (locales : List String) (locale : String) :
    List (String × String) → List (String × String)
  | [] => []
  | (key, file) :: rest =>
    if isLocalePrefixed locales key then []
    else
      ((if key == "/" then "/" ++ locale else "/" ++ locale ++ key),
        replaceFirst file "pages/" ("pages/" ++ locale ++ "/")) ::
        localeHtmlNonDynamicForLocale locales locale rest

/-- The locale-prefixed duplicates of the html non-dynamic bucket synthesized
by `prepareBuildManifests` across all configured locales (build/index.ts
lines 185-199, collected into `localeHtmlPages.nonDynamic`). -/
def localeHtmlNonDynamic (locales : List String) (entries : List (String × String)) :
    List (String × String) :=
  (locales.map (fun locale => localeHtmlNonDynamicForLocale locales locale entries)).flatten

/-! ## Theorems -/

/-- Rules whose source does not match are skipped by the ordered redirect scan. -/
theorem redirectLoop_append_none (path : String) (pre rest : List RedirectRule)
    (hpre : ∀ r2 ∈ pre, matchPath path r2.source = none) :
    redirectLoop path (pre ++ rest) = redirectLoop path rest := by
  induction pre with
  | nil => rfl
  | cons a as ih =>
    have ha : matchPath path a.source = none := hpre a (by simp)
    have has : ∀ r2 ∈ as, matchPath path r2.source = none :=
      fun r2 h => hpre r2 (by simp [h])
    simp [redirectLoop, ha, ih has]

/-- C3: `getRedirectPath` scans the redirect rules in declaration order and the
first rule whose source matches the default-locale-normalized path determines
the result — that rule's compiled destination and status code (or `none` when
its destination does not compile or compiles to the falsy empty string) —
independently of every later rule, with no specificity-based re-ordering. -/
theorem getRedirectPath_first_match_wins
    (request : Request) (rm : RoutesManifest)
    (pre post : List RedirectRule) (r : RedirectRule) (params : List (String × String))
    (hrules : rm.redirects = pre ++ r :: post)
    (hpre : ∀ r2 ∈ pre,
      matchPath (addDefaultLocaleToPath request.uri rm) r2.source = none)
    (hr : matchPath (addDefaultLocaleToPath request.uri rm) r.source = some params) :
    getRedirectPath request rm =
      (match compileDestination r.destination params with
       | none => none
       | some compiled =>
         if compiled = "" then none
         else some (compiled, r.statusCode)) := by
  unfold getRedirectPath
  rw [hrules, redirectLoop_append_none _ _ _ hpre]
  cases hcomp : compileDestination r.destination params <;>
    simp [redirectLoop, hr, hcomp]

/-- Witness for C3: with two rules of identical source `"/a"`, the resolved
redirect is the first rule's. -/
theorem getRedirectPath_first_match_wins_witness :
    getRedirectPath ⟨"/a"⟩ ⟨"", [⟨"/a", "/b", 308⟩, ⟨"/a", "/c", 307⟩], [], none⟩ =
      some ("/b", 308) := by
  have h := getRedirectPath_first_match_wins ⟨"/a"⟩
    ⟨"", [⟨"/a", "/b", 308⟩, ⟨"/a", "/c", 307⟩], [], none⟩
    [] [⟨"/a", "/c", 307⟩] ⟨"/a", "/b", 308⟩ [] rfl (by simp) (by decide)
  exact h.trans (by decide)

/-- Counterexample for C4: the first rule matches `"/a"` but its destination
`"/news/:slug"` fails to compile (no captured `slug`); the second rule also
matches `"/a"` and its destination compiles, yet `getRedirectPath` returns
`none` — the later matching rule does NOT determine the result, so resolution
does not fall through. -/
theorem getRedirectPath_no_fallthrough_cex :
    getRedirectPath ⟨"/a"⟩
        ⟨"", [⟨"/a", "/news/:slug", 308⟩, ⟨"/a", "/b", 308⟩], [], none⟩ = none ∧
      matchPath "/a" "/a" = some [] ∧
      compileDestination "/news/:slug" [] = none ∧
      compileDestination "/b" [] = some "/b" := by
  refine ⟨by decide, by decide, by decide, by decide⟩

/-- C4 (amended): when the first matching rule's destination fails to compile,
`getRedirectPath` returns `null` for the whole resolution immediately — no
fault is raised, but later rules (even later matching rules) are not
consulted; the failing rule aborts resolution rather than falling through. -/
theorem getRedirectPath_compile_failure_aborts
    (request : Request) (rm : RoutesManifest)
    (pre post : List RedirectRule) (r : RedirectRule) (params : List (String × String))
    (hrules : rm.redirects = pre ++ r :: post)
    (hpre : ∀ r2 ∈ pre,
      matchPath (addDefaultLocaleToPath request.uri rm) r2.source = none)
    (hr : matchPath (addDefaultLocaleToPath request.uri rm) r.source = some params)
    (hfail : compileDestination r.destination params = none) :
    getRedirectPath request rm = none := by
  unfold getRedirectPath
  rw [hrules, redirectLoop_append_none _ _ _ hpre]
  simp [redirectLoop, hr, hfail]

/-- Witness for the amended C4. -/
theorem getRedirectPath_compile_failure_aborts_witness :
    getRedirectPath ⟨"/a"⟩
      ⟨"", [⟨"/a", "/news/:slug", 308⟩, ⟨"/a", "/b", 308⟩], [], none⟩ = none :=
  getRedirectPath_compile_failure_aborts ⟨"/a"⟩
    ⟨"", [⟨"/a", "/news/:slug", 308⟩, ⟨"/a", "/b", 308⟩], [], none⟩
    [] [⟨"/a", "/b", 308⟩] ⟨"/a", "/news/:slug", 308⟩ [] rfl (by simp) (by decide) (by decide)

/-- C5: evaluation of the locale-duplication loop at a failing input.  With
configured locales `["en"]` and html non-dynamic entries
`[/en/about, /contact]` (in insertion order), the labelled
`break htmlPagesNonDynamicLoop` executed on the already-prefixed first key
aborts the whole per-locale loop, so NO duplicate is synthesized at all —
in particular the unprefixed `/contact` entry loses its `/en/contact`
duplicate, which the second conjunct shows IS synthesized once the
already-prefixed entry is removed. -/
theorem localeHtmlNonDynamic_break_bug :
    localeHtmlNonDynamic ["en"]
        [("/en/about", "pages/en/about.html"), ("/contact", "pages/contact.html")] = [] ∧
      localeHtmlNonDynamic ["en"] [("/contact", "pages/contact.html")] =
        [("/en/contact", "pages/en/contact.html")] := by
  refine ⟨by decide, by decide⟩

/-- When the three non-dynamic guards fail and the rewrite step yields nothing,
`handlePageReq` resolves through the dynamic-route scan. -/
theorem handlePageReq_reaches_dynamic
    (uri : String) (m : PageManifest) (rm : RoutesManifest) (isPreview isRewrite : Bool)
    (h1 : truthy (jsGet m.pages.html.nonDynamic (localeUriOf uri rm)) = false)
    (h2 : ((jsGet m.pages.ssg.nonDynamic (localeUriOf uri rm)).isSome && !isPreview) = false)
    (h3 : truthy (jsGet m.pages.ssr.nonDynamic (localeUriOf uri rm)) = false)
    (hrw : (if isRewrite then none else getRewritePath uri rm) = none) :
    handlePageReq uri m rm isPreview isRewrite =
      handlePageReqDynamic (localeUriOf uri rm) m := by
  cases isRewrite with
  | true =>
    unfold handlePageReq
    simp [h1, h2, h3]
  | false =>
    simp only [if_neg Bool.false_ne_true, if_false] at hrw
    unfold handlePageReq
    simp [h1, h2, h3, hrw]

/-- C1: when resolution reaches the dynamic step and the normalized URI
structurally matches template `T` in the globally sorted dynamic-route list,
`handlePageReq` resolves `T` against the buckets in the fixed priority order
ssg.dynamic (static file named by `pageHtml`), ssr.dynamic (render),
html.dynamic (static file), ssr.catchAll (render): the decision comes from the
first of the four buckets containing `T` as a key. -/
theorem handlePageReq_dynamic_bucket_priority
    (uri : String) (m : PageManifest) (rm : RoutesManifest) (isPreview isRewrite : Bool)
    (T : String)
    (h1 : truthy (jsGet m.pages.html.nonDynamic (localeUriOf uri rm)) = false)
    (h2 : ((jsGet m.pages.ssg.nonDynamic (localeUriOf uri rm)).isSome && !isPreview) = false)
    (h3 : truthy (jsGet m.pages.ssr.nonDynamic (localeUriOf uri rm)) = false)
    (hrw : (if isRewrite then none else getRewritePath uri rm) = none)
    (hdyn : matchDynamicRoute (localeUriOf uri rm) m.pages.dynamic = some T) :
    ((jsGet m.pages.ssg.dynamic T).isSome = true →
        handlePageReq uri m rm isPreview isRewrite =
          .staticFile (pageHtml (localeUriOf uri rm)) none) ∧
      (∀ d, jsGet m.pages.ssg.dynamic T = none →
        jsGet m.pages.ssr.dynamic T = some d →
        handlePageReq uri m rm isPreview isRewrite = .render d.file none) ∧
      (∀ d, jsGet m.pages.ssg.dynamic T = none →
        jsGet m.pages.ssr.dynamic T = none →
        jsGet m.pages.html.dynamic T = some d →
        handlePageReq uri m rm isPreview isRewrite = .staticFile d.file none) ∧
      (∀ d, jsGet m.pages.ssg.dynamic T = none →
        jsGet m.pages.ssr.dynamic T = none →
        jsGet m.pages.html.dynamic T = none →
        jsGet m.pages.ssr.catchAll T = some d →
        handlePageReq uri m rm isPreview isRewrite = .render d.file none) := by
  rw [handlePageReq_reaches_dynamic uri m rm isPreview isRewrite h1 h2 h3 hrw]
  refine ⟨fun hssg => ?_, fun d hssg hssr => ?_, fun d hssg hssr hhtml => ?_,
    fun d hssg hssr hhtml hca => ?_⟩ <;>
    simp [handlePageReqDynamic, hdyn, *]

/-- Witness for C1: the template `/docs/[id]` lives only in the ssr.dynamic
bucket, so the matching request renders that bucket's file. -/
theorem handlePageReq_dynamic_bucket_priority_witness :
    handlePageReq "/docs/abc"
        ⟨⟨[⟨"/docs/[id]", "rx"⟩], ⟨[], []⟩,
          ⟨[], [("/docs/[id]", ⟨"pages/docs/[id].js", "rx"⟩)], []⟩, ⟨[], []⟩⟩⟩
        ⟨"", [], [], none⟩ false false =
      .render "pages/docs/[id].js" none :=
  (handlePageReq_dynamic_bucket_priority "/docs/abc"
      ⟨⟨[⟨"/docs/[id]", "rx"⟩], ⟨[], []⟩,
        ⟨[], [("/docs/[id]", ⟨"pages/docs/[id].js", "rx"⟩)], []⟩, ⟨[], []⟩⟩⟩
      ⟨"", [], [], none⟩ false false "/docs/[id]"
      (by decide) (by decide) (by decide) (by decide) (by decide)).2.1
    ⟨"pages/docs/[id].js", "rx"⟩ (by decide) (by decide)

/-- C2: a normalized path present (with a real, non-empty artifact value) in
exactly one non-dynamic bucket resolves to that bucket's decision immediately,
before — and so regardless of — rewrite resolution and the dynamic-route list:
html.nonDynamic yields its stored file, ssg.nonDynamic (consulted only when
`isPreview` is false) yields the `pageHtml`-derived artifact name (root mapped
to the index artifact), ssr.nonDynamic yields a render of its stored page; the
final conjunct shows preview mode bypassing the ssg bucket. -/
theorem handlePageReq_nonDynamic_first
    (uri : String) (m : PageManifest) (rm : RoutesManifest) (isPreview isRewrite : Bool) :
    (∀ f, jsGet m.pages.html.nonDynamic (localeUriOf uri rm) = some f → f ≠ "" →
        jsGet m.pages.ssg.nonDynamic (localeUriOf uri rm) = none →
        jsGet m.pages.ssr.nonDynamic (localeUriOf uri rm) = none →
        handlePageReq uri m rm isPreview isRewrite = .staticFile f none) ∧
      (jsGet m.pages.html.nonDynamic (localeUriOf uri rm) = none →
        ∀ s, jsGet m.pages.ssg.nonDynamic (localeUriOf uri rm) = some s →
        jsGet m.pages.ssr.nonDynamic (localeUriOf uri rm) = none →
        isPreview = false →
        handlePageReq uri m rm isPreview isRewrite =
          .staticFile (pageHtml (localeUriOf uri rm)) none) ∧
      (jsGet m.pages.html.nonDynamic (localeUriOf uri rm) = none →
        jsGet m.pages.ssg.nonDynamic (localeUriOf uri rm) = none →
        ∀ p, jsGet m.pages.ssr.nonDynamic (localeUriOf uri rm) = some p → p ≠ "" →
        handlePageReq uri m rm isPreview isRewrite = .render p none) ∧
      (jsGet m.pages.html.nonDynamic (localeUriOf uri rm) = none →
        ∀ s, jsGet m.pages.ssg.nonDynamic (localeUriOf uri rm) = some s →
        ∀ p, jsGet m.pages.ssr.nonDynamic (localeUriOf uri rm) = some p → p ≠ "" →
        isPreview = true →
        handlePageReq uri m rm isPreview isRewrite = .render p none) := by
  refine ⟨fun f hf hne hssg hssr => ?_, fun hhtml s hssg hssr hprev => ?_,
    fun hhtml hssg p hp hne => ?_, fun hhtml s hssg p hp hne hprev => ?_⟩ <;>
    (unfold handlePageReq; simp [truthy, *])

/-- Witness for C2: an ssg-only path resolves to its prerendered artifact even
though a rewrite rule and a dynamic route also cover it. -/
theorem handlePageReq_nonDynamic_first_witness :
    handlePageReq "/terms"
        ⟨⟨[⟨"/[page]", "rx"⟩], ⟨[], []⟩,
          ⟨[], [("/[page]", ⟨"pages/[page].js", "rx"⟩)], []⟩,
          ⟨[("/terms", ⟨"/_next/data/b1/terms.json", none⟩)], []⟩⟩⟩
        ⟨"", [], [⟨"/terms", "/elsewhere"⟩], none⟩ false false =
      .staticFile "pages/terms.html" none :=
  (handlePageReq_nonDynamic_first "/terms"
      ⟨⟨[⟨"/[page]", "rx"⟩], ⟨[], []⟩,
        ⟨[], [("/[page]", ⟨"pages/[page].js", "rx"⟩)], []⟩,
        ⟨[("/terms", ⟨"/_next/data/b1/terms.json", none⟩)], []⟩⟩⟩
      ⟨"", [], [⟨"/terms", "/elsewhere"⟩], none⟩ false false).2.1
    (by decide) ⟨"/_next/data/b1/terms.json", none⟩ (by decide) (by decide) rfl

/-- C7: when no resolution step matches — the dynamic scan finds no template,
or finds one that no bucket owns — `handlePageReq` returns the `handle404`
decision, which is the fixed static 404 artifact when a real `/404` entry is
declared and otherwise a render of the error page; the embedded resolver is a
total function, so no input raises a fault. -/
theorem handlePageReq_no_match_is_404
    (uri : String) (m : PageManifest) (rm : RoutesManifest) (isPreview isRewrite : Bool)
    (h1 : truthy (jsGet m.pages.html.nonDynamic (localeUriOf uri rm)) = false)
    (h2 : ((jsGet m.pages.ssg.nonDynamic (localeUriOf uri rm)).isSome && !isPreview) = false)
    (h3 : truthy (jsGet m.pages.ssr.nonDynamic (localeUriOf uri rm)) = false)
    (hrw : (if isRewrite then none else getRewritePath uri rm) = none) :
    (matchDynamicRoute (localeUriOf uri rm) m.pages.dynamic = none →
        handlePageReq uri m rm isPreview isRewrite = handle404 m) ∧
      (∀ T, matchDynamicRoute (localeUriOf uri rm) m.pages.dynamic = some T →
        jsGet m.pages.ssg.dynamic T = none →
        jsGet m.pages.ssr.dynamic T = none →
        jsGet m.pages.html.dynamic T = none →
        jsGet m.pages.ssr.catchAll T = none →
        handlePageReq uri m rm isPreview isRewrite = handle404 m) ∧
      (∀ f, jsGet m.pages.html.nonDynamic "/404" = some f → f ≠ "" →
        handle404 m = .staticFile "pages/404.html" none) ∧
      (jsGet m.pages.html.nonDynamic "/404" = none →
        handle404 m = .render "pages/_error.js" none) := by
  rw [handlePageReq_reaches_dynamic uri m rm isPreview isRewrite h1 h2 h3 hrw]
  refine ⟨fun hdyn => ?_, fun T hdyn hssg hssr hhtml hca => ?_,
    fun f hf hne => ?_, fun h404 => ?_⟩ <;>
    simp [handlePageReqDynamic, handle404, truthy, *]

/-- Witness for C7: an unroutable request against an empty manifest degrades to
the error-page render (no 404 artifact declared), raising no fault. -/
theorem handlePageReq_no_match_is_404_witness :
    handlePageReq "/nope" ⟨⟨[], ⟨[], []⟩, ⟨[], [], []⟩, ⟨[], []⟩⟩⟩
        ⟨"", [], [], none⟩ false false =
      .render "pages/_error.js" none := by
  have h := handlePageReq_no_match_is_404 "/nope"
    ⟨⟨[], ⟨[], []⟩, ⟨[], [], []⟩, ⟨[], []⟩⟩⟩ ⟨"", [], [], none⟩ false false
    (by decide) (by decide) (by decide) (by decide)
  exact (h.1 (by decide)).trans (h.2.2.2 (by decide))

/-- C10: whenever the html non-dynamic bucket holds a (non-empty) entry under
the key `/404`, the NotFound resolution returns the fixed file name
`pages/404.html`, whatever file value the manifest actually stores for that
key. -/
theorem handle404_fixed_file
    (m : PageManifest) (f : String)
    (hf : jsGet m.pages.html.nonDynamic "/404" = some f) (hne : f ≠ "") :
    handle404 m = .staticFile "pages/404.html" none := by
  simp [handle404, truthy, hf, hne]

/-- Witness for C10: the stored `/404` artifact is a locale-prefixed file, yet
the resolution still names `pages/404.html`. -/
theorem handle404_fixed_file_witness :
    handle404 ⟨⟨[], ⟨[("/404", "pages/fr/404.html")], []⟩, ⟨[], [], []⟩, ⟨[], []⟩⟩⟩ =
      .staticFile "pages/404.html" none :=
  handle404_fixed_file ⟨⟨[], ⟨[("/404", "pages/fr/404.html")], []⟩, ⟨[], [], []⟩, ⟨[], []⟩⟩⟩
    "pages/fr/404.html" (by decide) (by decide)

/-- C6: the rewrite recursion of `handlePageReq` is bounded to exactly one
level.  The embedding is a total function (its recursion is justified by the
measure `isRewrite → 0`), so the router terminates on every input.  First
conjunct: an invocation with the recursion guard set never attempts rewrite
resolution — its result is invariant under replacing the rewrite-rule list by
the empty list.  Second conjunct: when the guard is clear, the non-dynamic
lookups fail and an internal (non-external, non-empty) rewrite is found, the
single recursive call is made with the guard set, on the rewritten path, with
the split-off query string re-attached. -/
theorem handlePageReq_rewrite_bounded :
    (∀ (uri : String) (m : PageManifest) (rm : RoutesManifest) (isPreview : Bool),
        handlePageReq uri m rm isPreview true =
          handlePageReq uri m (withRewrites rm []) isPreview true) ∧
      (∀ (uri : String) (m : PageManifest) (rm : RoutesManifest) (isPreview : Bool)
        (rw : String),
        truthy (jsGet m.pages.html.nonDynamic (localeUriOf uri rm)) = false →
        ((jsGet m.pages.ssg.nonDynamic (localeUriOf uri rm)).isSome && !isPreview) = false →
        truthy (jsGet m.pages.ssr.nonDynamic (localeUriOf uri rm)) = false →
        getRewritePath uri rm = some rw → rw ≠ "" →
        isExternalRewrite (splitRewrite rw).1 = false →
        handlePageReq uri m rm isPreview false =
          withQuerystring (handlePageReq (splitRewrite rw).1 m rm isPreview true)
            (splitRewrite rw).2) := by
  constructor
  · intro uri m rm isPreview
    unfold handlePageReq
    simp [withRewrites, localeUriOf, normalise, addDefaultLocaleToPath]
  · intro uri m rm isPreview rw h1 h2 h3 hrw hne hext
    conv_lhs => unfold handlePageReq
    simp [h1, h2, h3, hrw, hne, hext]

/-- Witness for C6: a concrete internal rewrite resolves through exactly one
recursive call with the guard set, and the guarded invocation ignores the
rewrite rules. -/
theorem handlePageReq_rewrite_bounded_witness :
    handlePageReq "/rewritten"
        ⟨⟨[], ⟨[("/target", "pages/target.html")], []⟩, ⟨[], [], []⟩, ⟨[], []⟩⟩⟩
        ⟨"", [], [⟨"/rewritten", "/target?x=1"⟩], none⟩ false false =
      withQuerystring
        (handlePageReq "/target"
          ⟨⟨[], ⟨[("/target", "pages/target.html")], []⟩, ⟨[], [], []⟩, ⟨[], []⟩⟩⟩
          ⟨"", [], [⟨"/rewritten", "/target?x=1"⟩], none⟩ false true)
        (some "x=1") ∧
      handlePageReq "/target"
          ⟨⟨[], ⟨[("/target", "pages/target.html")], []⟩, ⟨[], [], []⟩, ⟨[], []⟩⟩⟩
          ⟨"", [], [⟨"/rewritten", "/target?x=1"⟩], none⟩ false true =
        handlePageReq "/target"
          ⟨⟨[], ⟨[("/target", "pages/target.html")], []⟩, ⟨[], [], []⟩, ⟨[], []⟩⟩⟩
          (withRewrites ⟨"", [], [⟨"/rewritten", "/target?x=1"⟩], none⟩ []) false true :=
  ⟨handlePageReq_rewrite_bounded.2 "/rewritten"
      ⟨⟨[], ⟨[("/target", "pages/target.html")], []⟩, ⟨[], [], []⟩, ⟨[], []⟩⟩⟩
      ⟨"", [], [⟨"/rewritten", "/target?x=1"⟩], none⟩ false "/target?x=1"
      (by decide) (by decide) (by decide) (by decide) (by decide) (by decide),
    handlePageReq_rewrite_bounded.1 "/target"
      ⟨⟨[], ⟨[("/target", "pages/target.html")], []⟩, ⟨[], [], []⟩, ⟨[], []⟩⟩⟩
      ⟨"", [], [⟨"/rewritten", "/target?x=1"⟩], none⟩ false⟩

/-- Counterexample for C8: the page request `//x/` ends in a slash and the
trailing-slash policy is false, yet `getTrailingSlashPath` produces no
normalization (its guard `/^\/[^/]/` rejects a second leading slash), contrary
to the claim that only the bare root and the empty URI are exempt. -/
theorem getTrailingSlashPath_cex :
    getTrailingSlashPath ⟨"//x/"⟩ ⟨false⟩ false = none ∧
      getTrailingSlashPath ⟨"//x/"⟩ ⟨false⟩ false ≠ some "//x" := by
  refine ⟨by decide, by decide⟩

/-- C8 (amended): file-like requests always have a trailing slash stripped and
are otherwise left alone, regardless of the build policy; page requests are
normalized only when the URI starts with `/` followed by a non-slash character
(the code's guard, which exempts the bare root `/`, the empty URI, and any
`//`-prefixed URI, preventing a redirect loop): with policy false a trailing
slash is stripped, with policy true a missing trailing slash is appended. -/
theorem getTrailingSlashPath_policies :
    (∀ (uri : String) (man : Manifest), strEndsWith uri "/" = true →
        getTrailingSlashPath ⟨uri⟩ man true = some (strDropRight1 uri)) ∧
      (∀ (uri : String) (man : Manifest), strEndsWith uri "/" = false →
        getTrailingSlashPath ⟨uri⟩ man true = none) ∧
      (∀ (uri : String) (man : Manifest), man.trailingSlash = false →
        startsWithSlashNonSlash uri = true → strEndsWith uri "/" = true →
        getTrailingSlashPath ⟨uri⟩ man false = some (strDropRight1 uri)) ∧
      (∀ (uri : String) (man : Manifest), man.trailingSlash = true →
        startsWithSlashNonSlash uri = true → strEndsWith uri "/" = false →
        getTrailingSlashPath ⟨uri⟩ man false = some (uri ++ "/")) ∧
      (∀ (uri : String) (man : Manifest), startsWithSlashNonSlash uri = false →
        getTrailingSlashPath ⟨uri⟩ man false = none) := by
  refine ⟨fun uri man he => ?_, fun uri man he => ?_, fun uri man hp hg he => ?_,
    fun uri man hp hg he => ?_, fun uri man hg => ?_⟩ <;>
    simp [getTrailingSlashPath, *]

/-- Witness for the amended C8: the spec scenario — policy false, page request
`/terms/` — normalizes to `/terms`; and the bare root produces nothing. -/
theorem getTrailingSlashPath_policies_witness :
    getTrailingSlashPath ⟨"/terms/"⟩ ⟨false⟩ false = some "/terms" ∧
      getTrailingSlashPath ⟨"/"⟩ ⟨false⟩ false = none :=
  ⟨(getTrailingSlashPath_policies.2.2.1 "/terms/" ⟨false⟩ rfl (by decide)
      (by decide)).trans (by decide),
    getTrailingSlashPath_policies.2.2.2.2 "/" ⟨false⟩ (by decide)⟩

/-! ### Auxiliary lemmas for the trailing-slash analysis of `compileDestination` -/

/-- A split always produces at least one token. -/
theorem splitChars_ne_nil (c : Char) (l : List Char) : splitChars c l ≠ [] := by
  cases l with
  | nil => simp [splitChars]
  | cons x xs =>
    cases h : splitChars c xs with
    | nil => simp [splitChars, h]
    | cons g gs => simp [splitChars, h]; split <;> simp

/-- Tokens produced by a split never contain the separator. -/
theorem not_mem_of_mem_splitChars (c : Char) (l : List Char) (t : List Char)
    (ht : t ∈ splitChars c l) : c ∉ t := by
  induction l generalizing t with
  | nil => simp [splitChars] at ht; simp [ht]
  | cons x xs ih =>
    cases h : splitChars c xs with
    | nil => exact absurd h (splitChars_ne_nil c xs)
    | cons g gs =>
      rw [splitChars, h] at ht
      by_cases hx : x = c
      · simp [hx] at ht
        rcases ht with ht | ht | ht
        · simp [ht]
        · subst ht; exact ih t (by rw [h]; simp)
        · exact ih t (by rw [h]; simp [ht])
      · simp [hx] at ht
        rcases ht with ht | ht
        · subst ht
          intro hmem
          rcases List.mem_cons.mp hmem with h1 | h1
          · exact hx h1.symm
          · exact ih g (by rw [h]; simp) h1
        · exact ih t (by rw [h]; simp [ht])

/-- A split is the single empty token exactly for the empty input. -/
theorem splitChars_eq_single_nil (c : Char) (l : List Char) :
    splitChars c l = [[]] ↔ l = [] := by
  constructor
  · intro hs
    cases l with
    | nil => rfl
    | cons x xs =>
      cases h : splitChars c xs with
      | nil => exact absurd h (splitChars_ne_nil c xs)
      | cons g gs =>
        rw [splitChars, h] at hs
        by_cases hx : x = c <;> simp [hx] at hs
  · intro h; subst h; rfl

/-- A nonempty input ends with the separator exactly when its split ends with
the empty token. -/
theorem getLast?_splitChars (c : Char) (l : List Char) (hl : l ≠ []) :
    (splitChars c l).getLast? = some [] ↔ l.getLast? = some c := by
  induction l with
  | nil => exact absurd rfl hl
  | cons x xs ih =>
    cases hxs : xs with
    | nil =>
      subst hxs
      by_cases hx : x = c <;> simp [splitChars, hx]
    | cons y ys =>
      have hxs2 : xs ≠ [] := by rw [hxs]; simp
      rw [← hxs]
      cases h : splitChars c xs with
      | nil => exact absurd h (splitChars_ne_nil c xs)
      | cons g gs =>
        have hlast : (x :: xs).getLast? = xs.getLast? := by
          rw [hxs]; exact List.getLast?_cons_cons
        rw [hlast, ← ih hxs2, h]
        by_cases hx : x = c
        · simp only [splitChars, h, if_pos hx]
          cases gs with
          | nil => simp
          | cons g2 gs2 => simp [List.getLast?_cons_cons]
        · simp only [splitChars, h, if_neg hx]
          cases gs with
          | nil =>
            constructor
            · intro hh; simp at hh
            · intro hh
              have hg : g = [] := by simpa using hh
              rw [hg] at h
              exact absurd ((splitChars_eq_single_nil c xs).mp h) hxs2
          | cons g2 gs2 => simp [List.getLast?_cons_cons]

/-- Encoded parameter values never contain a slash. -/
theorem not_mem_encodeSlashChars (l : List Char) : ('/' : Char) ∉ encodeSlashChars l := by
  induction l with
  | nil => simp [encodeSlashChars]
  | cons c cs ih =>
    unfold encodeSlashChars
    by_cases hc : c = '/'
    · rw [if_pos hc]
      intro hmem
      rcases List.mem_append.mp hmem with h | h
      · revert h; decide
      · exact ih h
    · rw [if_neg hc]
      intro hmem
      rcases List.mem_append.mp hmem with h | h
      · rw [List.mem_singleton] at h
        exact hc h.symm
      · exact ih h

/-- Encoding a nonempty value yields a nonempty result. -/
theorem encodeSlashChars_ne_nil (l : List Char) (hl : l ≠ []) :
    encodeSlashChars l ≠ [] := by
  cases l with
  | nil => exact absurd rfl hl
  | cons c cs => by_cases hc : c = '/' <;> simp [encodeSlashChars, hc]

/-- Token substitution sends the empty token to the empty token and nonempty
tokens to nonempty tokens. -/
theorem tokenSub_nil_iff (params : List (String × String)) (t t2 : List Char)
    (h : tokenSub params t = some t2) : t2 = [] ↔ t = [] := by
  unfold tokenSub at h
  split at h
  · split at h
    · split at h
      · exact absurd h (by simp)
      · split at h
        · exact absurd h (by simp)
        · split at h
          next hv =>
            exact absurd h (by simp)
          next hv =>
            have ht2 := Option.some.inj h
            subst ht2
            constructor
            · intro he
              refine absurd he (encodeSlashChars_ne_nil _ ?_)
              intro hd
              refine hv ?_
              rename_i v _
              cases v
              simp_all
            · intro he
              simp at he
    · exact absurd h (by simp)
  · have := Option.some.inj h
    subst this
    exact Iff.rfl

/-- Token substitution preserves slash-freeness. -/
theorem tokenSub_no_slash (params : List (String × String)) (t t2 : List Char)
    (h : tokenSub params t = some t2) (hns : ('/' : Char) ∉ t) : ('/' : Char) ∉ t2 := by
  unfold tokenSub at h
  split at h
  · split at h
    · split at h
      · exact absurd h (by simp)
      · split at h
        · exact absurd h (by simp)
        · split at h
          · exact absurd h (by simp)
          · have ht2 := Option.some.inj h
            subst ht2
            exact not_mem_encodeSlashChars _
    · exact absurd h (by simp)
  · have := Option.some.inj h
    subst this
    exact hns

/-- Substitution over a token list preserves its length. -/
theorem tokensSub_length (params : List (String × String)) (ts ts2 : List (List Char))
    (h : tokensSub params ts = some ts2) : ts2.length = ts.length := by
  induction ts generalizing ts2 with
  | nil =>
    have := Option.some.inj h
    simp [← this]
  | cons t rest ih =>
    unfold tokensSub at h
    cases h1 : tokenSub params t with
    | none => rw [h1] at h; exact absurd h (by simp)
    | some u =>
      cases h2 : tokensSub params rest with
      | none => rw [h1, h2] at h; exact absurd h (by simp)
      | some us =>
        rw [h1, h2] at h
        have := Option.some.inj h
        subst this
        simp [ih us h2]

/-- Substitution over a token list preserves whether the last token is empty. -/
theorem tokensSub_getLast_nil (params : List (String × String)) (ts ts2 : List (List Char))
    (h : tokensSub params ts = some ts2) :
    (ts2.getLast? = some [] ↔ ts.getLast? = some []) := by
  induction ts generalizing ts2 with
  | nil =>
    have := Option.some.inj h
    simp [← this]
  | cons t rest ih =>
    unfold tokensSub at h
    cases h1 : tokenSub params t with
    | none => rw [h1] at h; exact absurd h (by simp)
    | some u =>
      cases h2 : tokensSub params rest with
      | none => rw [h1, h2] at h; exact absurd h (by simp)
      | some us =>
        rw [h1, h2] at h
        have := Option.some.inj h
        subst this
        cases rest with
        | nil =>
          have hus : us = [] := by
            have := tokensSub_length params [] us h2
            simpa using this
          subst hus
          simpa using tokenSub_nil_iff params t u h1
        | cons r rs =>
          cases us with
          | nil =>
            have := tokensSub_length params (r :: rs) [] h2
            simp at this
          | cons v vs =>
            rw [List.getLast?_cons_cons, List.getLast?_cons_cons]
            exact ih (v :: vs) h2

/-- Substitution over a token list preserves slash-freeness of every token. -/
theorem tokensSub_no_slash (params : List (String × String)) (ts ts2 : List (List Char))
    (h : tokensSub params ts = some ts2) (hns : ∀ t ∈ ts, ('/' : Char) ∉ t) :
    ∀ t ∈ ts2, ('/' : Char) ∉ t := by
  induction ts generalizing ts2 with
  | nil =>
    have := Option.some.inj h
    simp [← this]
  | cons t rest ih =>
    unfold tokensSub at h
    cases h1 : tokenSub params t with
    | none => rw [h1] at h; exact absurd h (by simp)
    | some u =>
      cases h2 : tokensSub params rest with
      | none => rw [h1, h2] at h; exact absurd h (by simp)
      | some us =>
        rw [h1, h2] at h
        have := Option.some.inj h
        subst this
        intro x hx
        rcases List.mem_cons.mp hx with hx | hx
        · subst hx
          exact tokenSub_no_slash params t x h1 (hns t (by simp))
        · exact ih us h2 (fun y hy => hns y (by simp [hy])) x hx

/-- A token join is empty exactly for no tokens or a single empty token. -/
theorem joinTokens_eq_nil_iff (ts : List (List Char)) :
    joinTokens ts = [] ↔ (ts = [] ∨ ts = [[]]) := by
  match ts with
  | [] => simp [joinTokens]
  | [t] => simp [joinTokens]
  | t :: u :: us => simp [joinTokens]

/-- A join of slash-free tokens ends in a slash exactly when the token list has
at least two tokens and ends with the empty token. -/
theorem joinTokens_getLast_slash :
    ∀ ts : List (List Char), (∀ t ∈ ts, ('/' : Char) ∉ t) →
      (((joinTokens ts).getLast? = some '/') ↔
        (ts.getLast? = some [] ∧ 2 ≤ ts.length)) := by
  intro ts
  induction ts with
  | nil => intro _; simp [joinTokens]
  | cons t rest ih =>
    intro hns
    cases rest with
    | nil =>
      simp only [joinTokens, List.getLast?_singleton, List.length_singleton]
      constructor
      · intro hlast
        exact absurd (List.mem_of_mem_getLast? (by simp [hlast])) (hns t (by simp))
      · intro hh
        omega
    | cons u us =>
      have hns2 : ∀ x ∈ u :: us, ('/' : Char) ∉ x := fun x hx => hns x (by simp [hx])
      have hstep0 : joinTokens (t :: u :: us) = t ++ '/' :: joinTokens (u :: us) := rfl
      rw [hstep0, List.getLast?_append_cons]
      have hrhs : (t :: u :: us).getLast? = (u :: us).getLast? := List.getLast?_cons_cons
      rw [hrhs]
      cases hm : joinTokens (u :: us) with
      | nil =>
        rcases (joinTokens_eq_nil_iff (u :: us)).mp hm with h | h
        · simp at h
        · have hu : u = [] := by
            have := congrArg List.head? h
            simpa using this
          have hus : us = [] := by
            have := congrArg List.length h
            simpa using this
          subst hu hus
          simp
      | cons m ms =>
        rw [List.getLast?_cons_cons, ← hm, ih hns2]
        cases us with
        | nil =>
          constructor
          · intro hh
            have := hh.2
            simp at this
          · intro hh
            have hu : u = [] := by simpa using hh.1
            subst hu
            simp [joinTokens] at hm
        | cons w ws =>
          have h1 : 2 ≤ (u :: w :: ws).length := by
            simp only [List.length_cons]; omega
          have h2 : 2 ≤ (t :: u :: w :: ws).length := by
            simp only [List.length_cons]; omega
          simp [h1, h2]

/-- Bridge between the string-level `strEndsWith · "/"` and the last character
of the underlying character list. -/
theorem strEndsWith_slash (s : String) :
    strEndsWith s "/" = true ↔ s.data.getLast? = some '/' := by
  rw [← List.head?_reverse]
  show List.isSuffixOf ['/'] s.data = true ↔ _
  unfold List.isSuffixOf
  rw [List.reverse_singleton]
  generalize s.data.reverse = m
  cases m with
  | nil => simp [List.isPrefixOf]
  | cons b bs => simp [List.isPrefixOf]; exact eq_comm

/-- Template compilation preserves the presence of a trailing slash. -/
theorem toPathChars_getLast_slash (params : List (String × String)) (l out : List Char)
    (h : toPathChars params l = some out) :
    (out.getLast? = some '/') ↔ (l.getLast? = some '/') := by
  unfold toPathChars at h
  cases hts : tokensSub params (splitChars '/' l) with
  | none => rw [hts] at h; exact absurd h (by simp)
  | some ts2 =>
    rw [hts] at h
    have hout : out = joinTokens ts2 := (Option.some.inj h).symm
    subst hout
    have hns : ∀ t ∈ ts2, ('/' : Char) ∉ t :=
      tokensSub_no_slash params _ ts2 hts
        (fun t ht => not_mem_of_mem_splitChars '/' l t ht)
    rw [joinTokens_getLast_slash ts2 hns]
    by_cases hl : l = []
    · subst hl
      have hts2 : ts2 = [[]] := by
        have h0 : tokensSub params (splitChars '/' ([] : List Char)) = some [[]] := rfl
        exact (Option.some.inj (h0.symm.trans hts)).symm
      subst hts2
      simp
    · constructor
      · rintro ⟨h1, _⟩
        exact (getLast?_splitChars '/' l hl).mp
          ((tokensSub_getLast_nil params _ _ hts).mp h1)
      · intro h1
        have hts_last : (splitChars '/' l).getLast? = some [] :=
          (getLast?_splitChars '/' l hl).mpr h1
        refine ⟨(tokensSub_getLast_nil params _ _ hts).mpr hts_last, ?_⟩
        rw [tokensSub_length params _ _ hts]
        cases hsp : splitChars '/' l with
        | nil => exact absurd hsp (splitChars_ne_nil '/' l)
        | cons a as =>
          cases as with
          | nil =>
            rw [hsp] at hts_last
            have ha : a = [] := by simpa using hts_last
            rw [ha] at hsp
            exact absurd ((splitChars_eq_single_nil '/' l).mp hsp) hl
          | cons b bs => simp only [List.length_cons]; omega

/-- String concatenation concatenates the underlying character lists. -/
theorem strData_append (a b : String) : (a ++ b).data = a.data ++ b.data := by
  cases a; cases b; rfl

/-- `takeWhile` keeps a list whose elements all satisfy the predicate. -/
theorem takeWhile_eq_self_of (p : Char → Bool) (l : List Char)
    (h : ∀ a ∈ l, p a = true) : l.takeWhile p = l := by
  induction l with
  | nil => rfl
  | cons a as ih =>
    rw [List.takeWhile_cons, if_pos (h a (by simp)), ih (fun x hx => h x (by simp [hx]))]

/-- C9 (amended): for every destination template and parameter map on which
`compileDestination` succeeds, parameter substitution never introduces a
trailing slash, and a trailing slash the compiled absolute URL gained from the
empty-path normalization of a bare origin is stripped; hence the presence of a
trailing slash in the output equals its presence in the template — for
non-absolute destinations unconditionally, and for absolute (http/https)
destinations provided the destination carries no query string (the URL query
is discarded by compilation, so a slash adjacent to a `?` can break the
equality, as the counterexample shows). -/
theorem compileDestination_trailing_slash_eq
    (d : String) (params : List (String × String)) (r : String)
    (hc : compileDestination d params = some r)
    (hq : (strStartsWith (strLower d) "https://" ||
           strStartsWith (strLower d) "http://") = true → ('?' : Char) ∉ d.data) :
    strEndsWith r "/" = strEndsWith d "/" := by
  unfold compileDestination at hc
  by_cases hext : (strStartsWith (strLower d) "https://" ||
      strStartsWith (strLower d) "http://") = true
  · -- external absolute URL
    rw [if_pos hext] at hc
    have hnoq : ('?' : Char) ∉ d.data := hq hext
    cases hurl : parseUrl d with
    | none => rw [hurl] at hc; exact absurd hc (by simp)
    | some op =>
      obtain ⟨origin, pathname⟩ := op
      rw [hurl] at hc
      simp only [] at hc
      -- invert parseUrl
      simp only [parseUrl] at hurl
      split at hurl
      · exact absurd hurl (by simp)
      · split at hurl
        · exact absurd hurl (by simp)
        · next hhost =>
          simp only [Option.some.injEq, Prod.mk.injEq] at hurl
          obtain ⟨horigin, hpathname⟩ := hurl
          set n := schemeLen d with hn
          set rest := d.data.drop n with hrest
          set host := rest.takeWhile notHostEnd with hhostdef
          set after := rest.dropWhile notHostEnd with hafter
          -- '?' does not occur in `after`
          have hnoq_after : ('?' : Char) ∉ after := by
            intro hmem
            exact hnoq ((List.drop_sublist n d.data).subset
              ((List.dropWhile_sublist (p := notHostEnd)).subset hmem))
          -- the query-free path equals `after`
          have hpath0 : after.takeWhile (fun c => !(c = '?')) = after := by
            refine takeWhile_eq_self_of _ _ (fun a ha => ?_)
            simp only [Bool.not_eq_true']
            by_cases haq : a = '?'
            · exact absurd (haq ▸ ha) hnoq_after
            · simpa using haq
          rw [hpath0] at hpathname
          -- decomposition of d
          have hdecomp : d.data = d.data.take n ++ (host ++ after) := by
            rw [hhostdef, hafter, List.takeWhile_append_dropWhile, hrest,
              List.take_append_drop]
          -- the host never ends in '/'
          have hhost_last : host.getLast? ≠ some '/' := by
            intro hlast
            have hmem : ('/' : Char) ∈ host := List.mem_of_mem_getLast? (by simp [hlast])
            have := List.mem_takeWhile_imp hmem
            simp [notHostEnd] at this
          -- the origin never ends in '/'
          have horigin_last : origin.data.getLast? ≠ some '/' := by
            rw [← horigin]
            show (d.data.take n ++ host).getLast? ≠ some '/'
            rw [List.getLast?_append_of_ne_nil _ hhost]
            exact hhost_last
          cases hafter_cases : after with
          | nil =>
            -- bare origin: the URL normalizes the empty path to "/", the
            -- compiled result gains a slash, and the code strips it off
            have hpathname2 : pathname = "/" := by
              rw [← hpathname, hafter_cases]
              simp
            have hd_last : d.data.getLast? ≠ some '/' := by
              rw [hdecomp, hafter_cases, List.append_nil,
                List.getLast?_append_of_ne_nil _ hhost]
              exact hhost_last
            have hd_ends : strEndsWith d "/" = false := by
              rw [Bool.eq_false_iff]
              intro hend
              exact hd_last ((strEndsWith_slash d).mp hend)
            rw [hpathname2] at hc
            have htp : toPath "/" params = some (String.mk ['/']) := rfl
            rw [htp] at hc
            simp only [] at hc
            have hcomp_data : (origin ++ String.mk ['/']).data = origin.data ++ ['/'] :=
              strData_append origin (String.mk ['/'])
            have hcomp_ends : strEndsWith (origin ++ String.mk ['/']) "/" = true := by
              rw [strEndsWith_slash, hcomp_data,
                List.getLast?_append_of_ne_nil _ (by simp)]
              simp
            have hcond : (!(strEndsWith d "/") &&
                strEndsWith (origin ++ String.mk ['/']) "/") = true := by
              rw [hd_ends, hcomp_ends]; rfl
            rw [if_pos hcond] at hc
            obtain rfl := Option.some.inj hc
            rw [hd_ends, Bool.eq_false_iff]
            intro hend
            have hlast := (strEndsWith_slash _).mp hend
            have hdata : (strDropRight1 (origin ++ String.mk ['/'])).data =
                origin.data := by
              show ((origin ++ String.mk ['/']).data).dropLast = origin.data
              rw [hcomp_data]
              simp
            rw [hdata] at hlast
            exact horigin_last hlast
          | cons a as =>
            have hne : after ≠ [] := by rw [hafter_cases]; simp
            rw [if_neg hne] at hpathname
            rw [← hpathname] at hc
            unfold toPath at hc
            cases hout : toPathChars params (String.mk after).data with
            | none => rw [hout] at hc; simp at hc
            | some out =>
              rw [hout] at hc
              simp only [Option.map_some'] at hc
              have hout2 : toPathChars params after = some out := hout
              have e1 : out.getLast? = some '/' ↔ after.getLast? = some '/' :=
                toPathChars_getLast_slash params after out hout2
              have e2 : d.data.getLast? = after.getLast? := by
                rw [hdecomp,
                  List.getLast?_append_of_ne_nil _ (by simp [hne]),
                  List.getLast?_append_of_ne_nil _ hne]
              have hcompdata : (origin ++ String.mk out).data = origin.data ++ out :=
                strData_append origin (String.mk out)
              have hcomp_ends : strEndsWith (origin ++ String.mk out) "/" =
                  strEndsWith d "/" := by
                rw [Bool.eq_iff_iff, strEndsWith_slash, strEndsWith_slash, hcompdata]
                cases hoc : out with
                | nil =>
                  rw [List.append_nil]
                  constructor
                  · intro hx; exact absurd hx horigin_last
                  · intro hx
                    rw [e2] at hx
                    have := e1.mpr hx
                    rw [hoc] at this
                    simp at this
                | cons o os =>
                  rw [List.getLast?_append_of_ne_nil _ (by simp), ← hoc, e2]
                  exact e1
              rw [hcomp_ends] at hc
              have hfalse : (!(strEndsWith d "/") && strEndsWith d "/") = false := by
                cases strEndsWith d "/" <;> rfl
              rw [hfalse] at hc
              simp only [Bool.false_eq_true, if_false] at hc
              obtain rfl := Option.some.inj hc
              exact hcomp_ends
  · rw [if_neg hext] at hc
    unfold toPath at hc
    cases htp : toPathChars params d.data with
    | none => rw [htp] at hc; exact absurd hc (by simp)
    | some out =>
      rw [htp] at hc
      have hr : r = String.mk out := by
        simpa using hc.symm
      subst hr
      rw [Bool.eq_iff_iff, strEndsWith_slash, strEndsWith_slash]
      show out.getLast? = some '/' ↔ d.data.getLast? = some '/'
      exact toPathChars_getLast_slash params d.data out htp

/-- Counterexample for C9: the external destination `https://x.com/a?q=/` ends
with a slash (inside its query string), compiles successfully with no
parameters, yet the compiled result `https://x.com/a` does not end with a
slash — the trailing-slash presence of output and template differ. -/
theorem compileDestination_trailing_slash_cex :
    compileDestination "https://x.com/a?q=/" [] = some "https://x.com/a" ∧
      strEndsWith "https://x.com/a?q=/" "/" = true ∧
      strEndsWith "https://x.com/a" "/" = false := by
  refine ⟨by decide, by decide, by decide⟩

/-- Witness for the amended C9: an internal destination with a substituted
parameter preserves the absence of the trailing slash. -/
theorem compileDestination_trailing_slash_eq_witness :
    compileDestination "/news/:slug" [("slug", "abc")] = some "/news/abc" ∧
      strEndsWith "/news/abc" "/" = strEndsWith "/news/:slug" "/" :=
  ⟨by decide, compileDestination_trailing_slash_eq "/news/:slug" [("slug", "abc")]
    "/news/abc" (by decide) (by decide)⟩
